import Mathlib

/-!
Shallow embedding of `src/model.py` (`HomeInvestmentCalculator`), the
cash-flow and return engine of the home-model repository.

Python floats are modelled as real numbers (`ℝ`).  Calendar dates (pandas
`Timestamp` values at day resolution) are modelled as year/month/day
triples; `pd.DateOffset(months=1)` / `pd.DateOffset(years=1)` are modelled
by calendar stepping with day-of-month clamping, and `(t1 - t2).days` by a
civil-calendar day count.  The recurring-cost expansion loop of
`_calculate_returns` does not terminate when a cost carries a frequency
other than `monthly`/`annual`, so it is modelled with explicit fuel
(`none` = the loop has not finished within the given fuel).
-/

/-- Calendar date (year, month, day), the day-resolution content of a pandas
`Timestamp` as used by the source. -/
structure Date where
  y : Nat
  m : Nat
  d : Nat
deriving DecidableEq

/-- Numeric key realising the chronological order of calendar dates
(months have fewer than 100 days, years fewer than 100 months, so the mixed
radix is faithful for well-formed dates). -/
def Date.key (x : Date) : Nat :=
  (x.y * 100 + x.m) * 100 + x.d

/-- Chronological order on dates; models `Timestamp` comparison
(`current_date <= sale_date`) in the source. -/
abbrev Date.le (a b : Date) : Prop := a.key ≤ b.key

/-- Gregorian leap-year test. -/
def isLeap (y : Nat) : Bool :=
  y % 4 == 0 && (y % 100 != 0 || y % 400 == 0)

/-- Number of days in month `m` of year `y`. -/
def daysInMonth (y m : Nat) : Nat :=
  if m = 2 then (if isLeap y then 29 else 28)
  else if m = 4 ∨ m = 6 ∨ m = 9 ∨ m = 11 then 30
  else 31

/-- One calendar month forward, clamping the day of month to the target
month's length: models `current_date + pd.DateOffset(months=1)`. -/
def Date.addMonths1 (x : Date) : Date :=
  if x.m = 12 then ⟨x.y + 1, 1, min x.d (daysInMonth (x.y + 1) 1)⟩
  else ⟨x.y, x.m + 1, min x.d (daysInMonth x.y (x.m + 1))⟩

/-- One calendar year forward, clamping Feb 29 to Feb 28 in non-leap years:
models `current_date + pd.DateOffset(years=1)`. -/
def Date.addYears1 (x : Date) : Date :=
  ⟨x.y + 1, x.m, min x.d (daysInMonth (x.y + 1) x.m)⟩

/-- Civil-calendar day number of a date; differences of `toDays` model the
`(t1 - t2).days` computations of the source. -/
def Date.toDays (x : Date) : Nat :=
  let ys := if x.m ≤ 2 then x.y - 1 else x.y
  let era := ys / 400
  let yoe := ys % 400
  let mp := if x.m ≤ 2 then x.m + 9 else x.m - 3
  let doy := (153 * mp + 2) / 5 + x.d - 1
  let doe := yoe * 365 + yoe / 4 - yoe / 100 + doy
  era * 146097 + doe

/-- Mortgage data as stored by `add_mortgage`. -/
structure Mortgage where
  principal : ℝ
  annual_rate : ℝ
  term_years : Nat
  start_date : Date

/-- Derived field `monthly_rate = annual_rate / 12 / 100` of `add_mortgage`. -/
noncomputable def Mortgage.monthly_rate (m : Mortgage) : ℝ :=
  m.annual_rate / 12 / 100

/-- Derived field `total_payments = term_years * 12` of `add_mortgage`. -/
def Mortgage.total_payments (m : Mortgage) : Nat :=
  m.term_years * 12

/-- Derived field `monthly_payment = p * (r * (1 + r)**n) / ((1 + r)**n - 1)`
of `add_mortgage`. -/
noncomputable def Mortgage.monthly_payment (m : Mortgage) : ℝ :=
  m.principal * (m.monthly_rate * (1 + m.monthly_rate) ^ m.total_payments) /
    ((1 + m.monthly_rate) ^ m.total_payments - 1)

/-- Errors surfaced by the model.  `zeroDivisionError` models the Python
`ZeroDivisionError` raised by float division by zero;
`missingSaleInformation` models the `ValueError` raised by
`calculate_returns`; `outOfFuel` is the modelling artifact marking that a
recurring-cost `while` loop of the source does not finish within the given
fuel (on an invalid frequency the source loop never finishes at all). -/
inductive CalcError where
  | missingSaleInformation
  | zeroDivisionError
  | outOfFuel
deriving DecidableEq

/-- The `add_mortgage` constructor.  The source computes
`monthly_payment` with a float division whose denominator
`(1 + r)**n - 1` is `0.0` exactly when the monthly rate is zero (or the
payment count is zero); Python raises `ZeroDivisionError` there, which is
modelled by the explicit guard. -/
noncomputable def addMortgage (principal annual_rate : ℝ) (term_years : Nat)
    (start_date : Date) : Except CalcError Mortgage :=
  let m : Mortgage := ⟨principal, annual_rate, term_years, start_date⟩
  if (1 + m.monthly_rate) ^ m.total_payments - 1 = 0 then
    Except.error CalcError.zeroDivisionError
  else
    Except.ok m

/-- The `calculate_mortgage_payment_split` method: given the optional
mortgage of the calculator and a 0-based payment number, return the
(principal, interest) split of that payment.  (`(0, 0)` when no mortgage is
set, as in the source.) -/
noncomputable def paymentSplit (om : Option Mortgage) (payment_number : Nat) :
    ℝ × ℝ :=
  match om with
  | none => (0, 0)
  | some m =>
    let r := m.monthly_rate
    let p := m.principal
    let pmt := m.monthly_payment
    let remaining_principal :=
      p * (1 + r) ^ payment_number -
        pmt * ((1 + r) ^ payment_number - 1) / r
    let interest_payment := remaining_principal * r
    let principal_payment := pmt - interest_payment
    (principal_payment, interest_payment)

/-- Cash-flow event categories (`type` column of the ledger). -/
inductive EvType where
  | initialCost
  | improvement
  | equityBuilding
  | interestCost
  | recurringCost
  | sale
deriving DecidableEq

/-- A ledger row: `{date, amount, description, type}`. -/
structure Event where
  date : Date
  amount : ℝ
  descr : String
  type : EvType

/-- Input record of `add_initial_cost` / `add_improvement`. -/
structure CostIn where
  descr : String
  amount : ℝ
  date : Date

/-- Input record of `add_recurring_cost`; `frequency` is a free string in
the source (the engine only steps the date on `monthly` / `annual`). -/
structure RecCost where
  descr : String
  amount : ℝ
  start_date : Date
  frequency : String

/-- Sale information captured from the `sale` CSV row. -/
structure SaleInfo where
  price : ℝ
  date : Date
  closing_costs_percent : ℝ

/-- The calculator state accumulated by the `add_*` methods. -/
structure CalcState where
  initial_costs : List CostIn
  improvements : List CostIn
  recurring_costs : List RecCost
  mortgage : Option Mortgage
  sale_info : Option SaleInfo

/-- Description string of mortgage principal events. -/
def descrMortgagePrincipal : String := "Mortgage Principal"

/-- Description string of mortgage interest events. -/
def descrMortgageInterest : String := "Mortgage Interest"

/-- Description string of the sale event. -/
def descrSaleProceeds : String := "Sale Proceeds (After Mortgage Payoff)"

/-- The `monthly` frequency string. -/
def freqMonthly : String := "monthly"

/-- The `annual` frequency string. -/
def freqAnnual : String := "annual"

/-- The case-insensitive needle used by the down-payment lookup. -/
def downPaymentNeedle : String := "down payment"

/-- Characters of a string, lowercased. -/
def lowerChars (s : String) : List Char := s.data.map Char.toLower

/-- Does the needle occur at the front of the haystack? -/
def frontMatches : List Char → List Char → Bool
  | [], _ => true
  | _ :: _, [] => false
  | a :: as, b :: bs => a == b && frontMatches as bs

/-- Does the needle occur anywhere in the haystack? -/
def hasSubChars (needle : List Char) : List Char → Bool
  | [] => frontMatches needle []
  | c :: cs => frontMatches needle (c :: cs) || hasSubChars needle cs

/-- Case-insensitive substring test; models the pandas
`.str.contains(needle, case=False)` lookup of the source. -/
def containsCI (hay needle : String) : Bool :=
  hasSubChars (lowerChars needle) (lowerChars hay)

/-- Body of the mortgage `while` loop of `_calculate_returns`.  The source
loop runs while `current_date <= sale_date and payment_number <
total_payments`; the second conjunct is encoded by the `fuel` argument,
which starts at `total_payments` and decreases as `payment_number`
increases.  Returns the emitted events together with the
`accumulated_equity` sum of the loop. -/
noncomputable def mortGo (m : Mortgage) (sale : Date) :
    Nat → Date → Nat → List Event × ℝ
  | 0, _, _ => ([], 0)
  | fuel + 1, cur, payment_number =>
    if Date.le cur sale then
      let split := paymentSplit (some m) payment_number
      let rest := mortGo m sale fuel (Date.addMonths1 cur) (payment_number + 1)
      (⟨cur, -split.1, descrMortgagePrincipal, EvType.equityBuilding⟩ ::
          ⟨cur, -split.2, descrMortgageInterest, EvType.interestCost⟩ ::
          rest.1,
        split.1 + rest.2)
    else ([], 0)

/-- Mortgage expansion of `_calculate_returns`: events plus accumulated
equity, starting at the mortgage start date with payment number 0. -/
noncomputable def mortgageEvents (m : Mortgage) (sale : Date) :
    List Event × ℝ :=
  mortGo m sale m.total_payments m.start_date 0

/-- One step of the recurring-cost date: a calendar month for frequency
`monthly`, a calendar year for `annual`, and no change otherwise (in the
source neither branch of the `if`/`elif` fires, so `current_date` is left
unchanged). -/
def freqStep (c : RecCost) (cur : Date) : Date :=
  if c.frequency = freqMonthly then Date.addMonths1 cur
  else if c.frequency = freqAnnual then Date.addYears1 cur
  else cur

/-- Body of the recurring-cost `while` loop of `_calculate_returns`, with
explicit fuel: `none` means the loop did not finish within the fuel (for an
invalid frequency the source loop never finishes). -/
def recurGo (c : RecCost) (sale : Date) : Nat → Date → Option (List Event)
  | 0, cur => if Date.le cur sale then none else some []
  | fuel + 1, cur =>
    if Date.le cur sale then
      Option.map
        (fun l => ⟨cur, -c.amount, c.descr, EvType.recurringCost⟩ :: l)
        (recurGo c sale fuel (freqStep c cur))
    else some []

/-- Recurring-cost expansion, starting at the cost's start date. -/
def expandRecurring (c : RecCost) (sale : Date) (fuel : Nat) :
    Option (List Event) :=
  recurGo c sale fuel c.start_date

/-- Expansion of all recurring costs, in list order, concatenated. -/
def buildRecurring (sale : Date) (fuel : Nat) :
    List RecCost → Option (List Event)
  | [] => some []
  | c :: cs =>
    Option.bind (expandRecurring c sale fuel) fun l =>
      Option.map (fun rest => l ++ rest) (buildRecurring sale fuel cs)

/-- Latest date of the ledger (`df['date'].max()`). -/
def maxDateOf (df : List Event) : Date :=
  df.foldr (fun e acc => if Date.le acc e.date then e.date else acc) ⟨0, 1, 1⟩

/-- Earliest date of the ledger (`df['date'].min()`). -/
def minDateOf (df : List Event) : Date :=
  df.foldr (fun e acc => if Date.le e.date acc then e.date else acc)
    ⟨9999, 12, 31⟩

/-- Approximate month count between two dates:
`(a - b).days / 30.44` of the source. -/
noncomputable def monthsBetween (a b : Date) : ℝ :=
  (((a.toDays : ℤ) - (b.toDays : ℤ) : ℤ) : ℝ) / 30.44

/-- Result record of `calculate_market_comparison`. -/
structure MarketResult where
  finalValue : ℝ
  netProfit : ℝ
  totalInvested : ℝ
  totalWithdrawn : ℝ
  rateUsed : ℝ

/-- The `calculate_market_comparison` method: future value of every
negative ledger amount compounded monthly at
`(1 + annual) ^ (1/12) - 1` until the latest ledger date. -/
noncomputable def calcMarketComparison (df : List Event)
    (sp500_annual_return : ℝ) : MarketResult :=
  let monthly_rate := (1 + sp500_annual_return) ^ ((1 : ℝ) / 12) - 1
  let end_date := maxDateOf df
  let market_values :=
    (df.filter (fun e => decide (e.amount < 0))).map
      (fun e => -e.amount * (1 + monthly_rate) ^ monthsBetween end_date e.date)
  let total_invested :=
    -((df.filter (fun e => decide (e.amount < 0))).map (fun e => e.amount)).sum
  let total_withdrawn :=
    ((df.filter (fun e => decide (0 < e.amount))).map (fun e => e.amount)).sum
  { finalValue := market_values.sum
    netProfit := market_values.sum - total_invested
    totalInvested := total_invested
    totalWithdrawn := total_withdrawn
    rateUsed := sp500_annual_return * 100 }

/-- Is a ledger row an `Initial Cost` row? -/
def isInitialRow (e : Event) : Bool := e.type == EvType.initialCost

/-- The `Initial Cost` rows of the ledger, in ledger order
(`df[df['type'] == 'Initial Cost']`). -/
def initialRows (df : List Event) : List Event := df.filter isInitialRow

/-- The initial-cost rows whose description contains `down payment`
case-insensitively. -/
def dpRows (df : List Event) : List Event :=
  (initialRows df).filter (fun e => containsCI e.descr downPaymentNeedle)

/-- The summary's down payment: negated amount of the first matching row,
0 when there is none (`.iloc[0]` of the filtered frame). -/
def downPaymentOf (df : List Event) : ℝ :=
  match dpRows df with
  | [] => 0
  | e :: _ => -e.amount

/-- The summary's purchase date: date of the first initial-cost row, `none`
when the ledger has no initial-cost rows. -/
def purchaseDateOf (df : List Event) : Option Date :=
  match initialRows df with
  | [] => none
  | e :: _ => some e.date

/-- The summary's purchase price: down payment plus mortgage principal,
computed only when initial-cost rows exist (0 otherwise). -/
def purchasePriceOf (om : Option Mortgage) (df : List Event) : ℝ :=
  match initialRows df with
  | [] => 0
  | _ :: _ =>
    downPaymentOf df + (match om with | none => 0 | some m => m.principal)

/-- Elapsed months between mortgage start and sale date:
`(sale_date - start_date).days / 30.44`. -/
noncomputable def monthsElapsedAtSale (m : Mortgage) (sale : Date) : ℝ :=
  (((sale.toDays : ℤ) - (m.start_date.toDays : ℤ) : ℤ) : ℝ) / 30.44

/-- Closed-form remaining balance
`p * (1 + r)^n - pmt * ((1 + r)^n - 1) / r` at a real month count `n`
(real exponent: the source raises a float to a fractional power). -/
noncomputable def balanceAt (m : Mortgage) (n : ℝ) : ℝ :=
  m.principal * (1 + m.monthly_rate) ^ n -
    m.monthly_payment * ((1 + m.monthly_rate) ^ n - 1) / m.monthly_rate

/-- Remaining mortgage balance at the sale date as computed by
`_calculate_returns`: 0 with no mortgage, and 0 once
`months_elapsed < total_payments` fails. -/
noncomputable def remainingMortgageAt (om : Option Mortgage) (sale : Date) :
    ℝ :=
  match om with
  | none => 0
  | some m =>
    if monthsElapsedAtSale m sale < (m.total_payments : ℝ) then
      balanceAt m (monthsElapsedAtSale m sale)
    else 0

/-- The summary record assembled by `_calculate_returns`.  The IRR metric
(computed by an external iterative root-finder, `npf.irr`, and downgraded
to NaN on failure) is outside the scope of the modelled claims and is
omitted. -/
structure Summary where
  totalInitialInvestment : ℝ
  totalCashOutflow : ℝ
  accumulatedEquity : ℝ
  remainingMortgage : ℝ
  saleProceeds : ℝ
  netProfit : ℝ
  holdingPeriodYears : ℝ
  sp500FinalValue : ℝ
  sp500NetProfit : ℝ
  sp500AnnualReturnUsed : ℝ
  outperformance : ℝ
  purchasePrice : ℝ
  downPayment : ℝ
  purchaseDate : Option Date
  salePrice : ℝ
  saleDate : Date
  totalInvested : ℝ
  totalWithdrawn : ℝ

/-- Summary assembly of `_calculate_returns` from the final ledger and the
already-computed equity, remaining mortgage and net sale proceeds. -/
noncomputable def summaryOf (st : CalcState) (si : SaleInfo)
    (df : List Event)
    (accumulated_equity remaining_mortgage net_sale_proceeds : ℝ) :
    Summary :=
  let mc := calcMarketComparison df 0.07
  { totalInitialInvestment :=
      -((df.filter (fun e =>
          e.type == EvType.initialCost || e.type == EvType.improvement)).map
            (fun e => e.amount)).sum
    totalCashOutflow :=
      -((df.filter (fun e => decide (e.amount < 0))).map
          (fun e => e.amount)).sum
    accumulatedEquity := accumulated_equity
    remainingMortgage := remaining_mortgage
    saleProceeds := net_sale_proceeds
    netProfit := (df.map (fun e => e.amount)).sum
    holdingPeriodYears :=
      (((si.date.toDays : ℤ) - ((minDateOf df).toDays : ℤ) : ℤ) : ℝ) / 365.25
    sp500FinalValue := mc.finalValue
    sp500NetProfit := mc.netProfit
    sp500AnnualReturnUsed := mc.rateUsed
    outperformance := (df.map (fun e => e.amount)).sum - mc.netProfit
    purchasePrice := purchasePriceOf st.mortgage df
    downPayment := downPaymentOf df
    purchaseDate := purchaseDateOf df
    salePrice := si.price
    saleDate := si.date
    totalInvested := mc.totalInvested
    totalWithdrawn := mc.totalWithdrawn }

/-- The pre-sale event list of `_calculate_returns` (`all_costs`, in source
append order: initial costs, improvements, mortgage, recurring), together
with the accumulated equity of the mortgage loop. -/
noncomputable def calcLedgerPresale (st : CalcState) (si : SaleInfo)
    (fuel : Nat) : Option (List Event × ℝ) :=
  let initEvs := st.initial_costs.map
    (fun c => (⟨c.date, -c.amount, c.descr, EvType.initialCost⟩ : Event))
  let impEvs := st.improvements.map
    (fun c => (⟨c.date, -c.amount, c.descr, EvType.improvement⟩ : Event))
  let mort := match st.mortgage with
    | none => (([] : List Event), (0 : ℝ))
    | some m => mortgageEvents m si.date
  Option.map
    (fun recEvs => (initEvs ++ impEvs ++ mort.1 ++ recEvs, mort.2))
    (buildRecurring si.date fuel st.recurring_costs)

/-- Ledger order used by `df.sort_values('date')`: ascending date. -/
abbrev evLe (a b : Event) : Prop := Date.le a.date b.date

/-- The `df.sort_values('date')` step (a sort by date; the claims in scope
do not depend on stability of ties). -/
def sortLedger (l : List Event) : List Event := List.insertionSort evLe l

/-- The `calculate_returns` entry point followed by `_calculate_returns`:
checks the sale information, builds and sorts the pre-sale ledger, appends
the sale event, and assembles the summary. -/
noncomputable def calcReturns (st : CalcState) (fuel : Nat) :
    Except CalcError (List Event × Summary) :=
  match st.sale_info with
  | none => Except.error CalcError.missingSaleInformation
  | some si =>
    match calcLedgerPresale st si fuel with
    | none => Except.error CalcError.outOfFuel
    | some pres =>
      let df0 := sortLedger pres.1
      let remaining_mortgage := remainingMortgageAt st.mortgage si.date
      let closing_costs := si.price * (si.closing_costs_percent / 100)
      let net_sale_proceeds := si.price - closing_costs - remaining_mortgage
      let df := df0 ++
        [⟨si.date, net_sale_proceeds, descrSaleProceeds, EvType.sale⟩]
      Except.ok
        (df, summaryOf st si df pres.2 remaining_mortgage net_sale_proceeds)

/-- Remaining mortgage at sale following the spec's wording: the same
closed-form balance at the day-count month total, clamped to zero once
elapsed months reach `total_payments` (and zero with no mortgage). -/
noncomputable def remainingMortgageSpec (om : Option Mortgage)
    (sale : Date) : ℝ :=
  match om with
  | none => 0
  | some m =>
    if (m.total_payments : ℝ) ≤ monthsElapsedAtSale m sale then 0
    else balanceAt m (monthsElapsedAtSale m sale)

/-- Net sale proceeds following the spec's wording:
`sale_price - sale_price * closing_costs_percent / 100 - remaining`. -/
noncomputable def netSaleProceedsSpec (om : Option Mortgage)
    (si : SaleInfo) : ℝ :=
  si.price - si.price * si.closing_costs_percent / 100 -
    remainingMortgageSpec om si.date

/-- Placeholder summary used only to project `Except` results in witness
statements. -/
noncomputable def summaryDefault : Summary :=
  ⟨0, 0, 0, 0, 0, 0, 0, 0, 0, 0, 0, 0, 0, none, 0, ⟨0, 1, 1⟩, 0, 0⟩

/-- Projection of an engine result to its ledger/summary pair (used only to
name concrete results inside witness statements). -/
noncomputable def okPair (r : Except CalcError (List Event × Summary)) :
    List Event × Summary :=
  r.toOption.getD ([], summaryDefault)

/-- Concrete mortgage used by witnesses: principal 300000, annual rate 4%,
30-year term (the concrete scenario of the spec). -/
def mortW : Mortgage :=
  { principal := 300000, annual_rate := 4, term_years := 30,
    start_date := ⟨2020, 1, 1⟩ }

/-- Calculator state with costs but no sale information. -/
def stNoSale : CalcState :=
  { initial_costs := [⟨downPaymentNeedle, 60000, ⟨2020, 1, 1⟩⟩],
    improvements := [], recurring_costs := [], mortgage := some mortW,
    sale_info := none }

/-- Ledger order is total. -/
instance : IsTotal Event evLe := ⟨fun a b => Nat.le_total a.date.key b.date.key⟩

/-- Ledger order is transitive. -/
instance : IsTrans Event evLe := ⟨fun _ _ _ hab hbc => Nat.le_trans hab hbc⟩

/-- Concrete monthly recurring cost used by witnesses. -/
def recCostW : RecCost :=
  { descr := "property tax", amount := 3000, start_date := ⟨2020, 1, 1⟩,
    frequency := freqMonthly }

/-- Concrete sale date used by recurring-cost witnesses. -/
def saleDateW : Date := ⟨2020, 3, 15⟩

/-- Concrete sale date used by the mortgage-expansion witness. -/
def saleDate2W : Date := ⟨2020, 2, 15⟩

/-- The concrete recurring-cost expansion named for the C5 witness. -/
def recEvsW : List Event := (expandRecurring recCostW saleDateW 4).getD []

/-- Concrete sale information used by the C3 witness. -/
def siC3w : SaleInfo := ⟨450000, ⟨2025, 1, 1⟩, 6⟩

/-- Concrete calculator state for the C3 witness. -/
def stC3w : CalcState := ⟨[], [], [], none, some siC3w⟩

/-- The C3 witness ledger. -/
noncomputable def dfC3w : List Event := (okPair (calcReturns stC3w 0)).1

/-- The C3 witness summary. -/
noncomputable def smC3w : Summary := (okPair (calcReturns stC3w 0)).2

/-- Concrete sale information used by the C4 counterexample and witness. -/
def siC4 : SaleInfo := ⟨450000, ⟨2025, 1, 1⟩, 6⟩

/-- Counterexample state for C4: one initial cost dated after the sale
date. -/
def stC4x : CalcState :=
  ⟨[⟨"late appraisal fee", 1000, ⟨2031, 1, 1⟩⟩], [], [], none, some siC4⟩

/-- The C4 counterexample ledger. -/
noncomputable def dfC4x : List Event := (okPair (calcReturns stC4x 0)).1

/-- The C4 counterexample summary. -/
noncomputable def smC4x : Summary := (okPair (calcReturns stC4x 0)).2

/-- Witness state for the amended C4: one initial cost before the sale
date. -/
def stC4w : CalcState :=
  ⟨[⟨downPaymentNeedle, 60000, ⟨2020, 1, 1⟩⟩], [], [], none, some siC4⟩

/-- The amended-C4 witness ledger. -/
noncomputable def dfC4w : List Event := (okPair (calcReturns stC4w 0)).1

/-- The amended-C4 witness summary. -/
noncomputable def smC4w : Summary := (okPair (calcReturns stC4w 0)).2

/-- Counterexample state for C9: one initial cost whose description does
not contain `down payment`. -/
def stC9x : CalcState :=
  ⟨[⟨"closing costs", 5000, ⟨2020, 1, 1⟩⟩], [], [], none, some siC3w⟩

/-- The C9 counterexample ledger. -/
noncomputable def dfC9x : List Event := (okPair (calcReturns stC9x 0)).1

/-- The C9 counterexample summary. -/
noncomputable def smC9x : Summary := (okPair (calcReturns stC9x 0)).2

/-! ## Theorems -/

/-- Negating each event amount negates the sum. -/
theorem sum_map_neg_amount (l : List Event) :
    (l.map (fun e => -e.amount)).sum = -(l.map (fun e => e.amount)).sum := by
  induction l with
  | nil => simp
  | cons a t ih => simp only [List.map_cons, List.sum_cons, ih]; ring

/-- C1: for every mortgage with positive monthly rate and every payment
index below `total_payments`, the principal portion and the interest
portion returned by `calculate_mortgage_payment_split` sum exactly to the
monthly payment. -/
theorem claim1_split_sums_to_monthly_payment (m : Mortgage) (n : Nat)
    (hr : 0 < m.monthly_rate) (hn : n < m.total_payments) :
    (paymentSplit (some m) n).1 + (paymentSplit (some m) n).2 =
      m.monthly_payment := by
  simp only [paymentSplit]
  ring

/-- Witness for C1 at the concrete 30-year 4% mortgage and payment 0. -/
theorem claim1_split_sums_witness :
    0 < mortW.monthly_rate ∧ 0 < mortW.total_payments ∧
      (paymentSplit (some mortW) 0).1 + (paymentSplit (some mortW) 0).2 =
        mortW.monthly_payment :=
  ⟨by norm_num [mortW, Mortgage.monthly_rate], by decide,
    claim1_split_sums_to_monthly_payment mortW 0
      (by norm_num [mortW, Mortgage.monthly_rate]) (by decide)⟩

/-- C6: with no sale information present, requesting a calculation fails
with `MissingSaleInformation` and returns no ledger or summary. -/
theorem claim6_missing_sale_is_hard_error (st : CalcState) (fuel : Nat)
    (h : st.sale_info = none) :
    calcReturns st fuel = Except.error CalcError.missingSaleInformation := by
  simp [calcReturns, h]

/-- Witness for C6 at a concrete cost set with no sale row. -/
theorem claim6_missing_sale_witness :
    stNoSale.sale_info = none ∧
      calcReturns stNoSale 0 =
        Except.error CalcError.missingSaleInformation :=
  ⟨rfl, claim6_missing_sale_is_hard_error stNoSale 0 rfl⟩

/-- C7 (code bug): constructing a mortgage with annual rate 0 (hence
monthly rate 0) does not raise a `DegenerateAmortization` error; the
monthly-payment formula's denominator `(1 + r)**n - 1` is exactly zero and
the source's float division raises an uncaught `ZeroDivisionError`
instead. -/
theorem claim7_zero_rate_raises_zero_division :
    addMortgage 300000 0 30 ⟨2020, 1, 1⟩ =
      Except.error CalcError.zeroDivisionError := by
  norm_num [addMortgage, Mortgage.monthly_rate, Mortgage.total_payments]

/-- C8: with a benchmark annual return of 0, the market comparison's final
value equals the total invested, for every ledger. -/
theorem claim8_zero_benchmark_collapses (df : List Event) :
    (calcMarketComparison df 0).finalValue =
      (calcMarketComparison df 0).totalInvested := by
  simp [calcMarketComparison, Real.one_rpow, sum_map_neg_amount]

/-- Every month has at most 31 days. -/
theorem daysInMonth_le_31 (y m : Nat) : daysInMonth y m ≤ 31 := by
  unfold daysInMonth
  split
  · split <;> omega
  · split <;> omega

/-- Stepping a month keeps the day of month within 31. -/
theorem addMonths1_d_le (x : Date) : x.addMonths1.d ≤ 31 := by
  unfold Date.addMonths1
  split <;>
    exact le_trans (Nat.min_le_right _ _) (daysInMonth_le_31 _ _)

/-- Stepping a year keeps the day of month within 31. -/
theorem addYears1_d_le (x : Date) : x.addYears1.d ≤ 31 := by
  unfold Date.addYears1
  exact le_trans (Nat.min_le_right _ _) (daysInMonth_le_31 _ _)

/-- Stepping a calendar month strictly increases the date key. -/
theorem key_lt_addMonths1 (x : Date) (hd : x.d ≤ 31) :
    x.key < x.addMonths1.key := by
  have h1 := daysInMonth_le_31 (x.y + 1) 1
  have h2 := daysInMonth_le_31 x.y (x.m + 1)
  unfold Date.addMonths1
  split <;> simp only [Date.key] <;> omega

/-- Stepping a calendar year strictly increases the date key. -/
theorem key_lt_addYears1 (x : Date) (hd : x.d ≤ 31) :
    x.key < x.addYears1.key := by
  have h2 := daysInMonth_le_31 (x.y + 1) x.m
  simp only [Date.addYears1, Date.key]
  omega

/-- For a valid frequency, one recurring-cost step strictly increases the
date key and keeps the day of month within 31. -/
theorem freqStep_key_lt (c : RecCost) (x : Date) (hd : x.d ≤ 31)
    (hf : c.frequency = freqMonthly ∨ c.frequency = freqAnnual) :
    x.key < (freqStep c x).key ∧ (freqStep c x).d ≤ 31 := by
  unfold freqStep
  rcases hf with h | h
  · rw [if_pos h]
    exact ⟨key_lt_addMonths1 x hd, addMonths1_d_le x⟩
  · rw [h]
    rw [if_neg (by decide), if_pos rfl]
    exact ⟨key_lt_addYears1 x hd, addYears1_d_le x⟩

/-- Iterating a key-increasing, day-preserving step keeps the key at or
above the start and the day within 31. -/
theorem step_iterate_mono (g : Date → Date)
    (hg : ∀ z : Date, z.d ≤ 31 → z.key < (g z).key ∧ (g z).d ≤ 31)
    (x : Date) (hd : x.d ≤ 31) :
    ∀ k : Nat, x.key ≤ (g^[k] x).key ∧ (g^[k] x).d ≤ 31 := by
  intro k
  induction k with
  | zero => simpa using hd
  | succ n ih =>
    rw [Function.iterate_succ_apply']
    rcases ih with ⟨h1, h2⟩
    rcases hg _ h2 with ⟨h3, h4⟩
    exact ⟨le_trans h1 (le_of_lt h3), h4⟩

/-- With a valid frequency, the recurring-cost loop finishes once the fuel
exceeds the key distance to the sale date. -/
theorem recurGo_isSome (c : RecCost) (sale : Date)
    (hf : c.frequency = freqMonthly ∨ c.frequency = freqAnnual) :
    ∀ (fuel : Nat) (cur : Date), cur.d ≤ 31 → sale.key < cur.key + fuel →
      (recurGo c sale fuel cur).isSome := by
  intro fuel
  induction fuel with
  | zero =>
    intro cur hd hk
    simp only [recurGo]
    rw [if_neg (by omega)]
    rfl
  | succ n ih =>
    intro cur hd hk
    simp only [recurGo]
    split
    · have hstep := freqStep_key_lt c cur hd hf
      have hrec := ih (freqStep c cur) hstep.2 (by omega)
      obtain ⟨a, ha⟩ := Option.isSome_iff_exists.mp hrec
      simp [ha]
    · rfl

/-- With an invalid frequency and a start date not after the sale date,
the recurring-cost loop never finishes (the source loop diverges). -/
theorem recurGo_none_of_invalid (c : RecCost) (sale : Date)
    (h1 : c.frequency ≠ freqMonthly) (h2 : c.frequency ≠ freqAnnual) :
    ∀ (fuel : Nat) (cur : Date), Date.le cur sale →
      recurGo c sale fuel cur = none := by
  have hstep : ∀ cur, freqStep c cur = cur := by
    intro cur
    unfold freqStep
    rw [if_neg h1, if_neg h2]
  intro fuel
  induction fuel with
  | zero =>
    intro cur hle
    simp only [recurGo]
    rw [if_pos hle]
  | succ n ih =>
    intro cur hle
    simp only [recurGo]
    rw [if_pos hle, hstep, ih cur hle]
    rfl


/-- Completed runs of the recurring-cost loop emit exactly one event per
step date within the sale bound, the dates being the iterates of the
frequency step from the current date. -/
theorem recurGo_char (c : RecCost) (sale : Date)
    (hf : c.frequency = freqMonthly ∨ c.frequency = freqAnnual) :
    ∀ (fuel : Nat) (cur : Date), cur.d ≤ 31 → ∀ L,
      recurGo c sale fuel cur = some L →
      L = ((List.range fuel).filter
            (fun k => decide (Date.le ((freqStep c)^[k] cur) sale))).map
          (fun k =>
            (⟨(freqStep c)^[k] cur, -c.amount, c.descr,
              EvType.recurringCost⟩ : Event)) := by
  intro fuel
  induction fuel with
  | zero =>
    intro cur hd L h
    simp only [recurGo] at h
    split at h
    · exact absurd h (by simp)
    · simp only [List.range_zero, List.filter_nil, List.map_nil]
      exact ((Option.some.injEq _ _).mp h).symm
  | succ n ih =>
    intro cur hd L h
    simp only [recurGo] at h
    by_cases hle : Date.le cur sale
    · rw [if_pos hle] at h
      rcases Option.map_eq_some'.mp h with ⟨L', hrec, hL⟩
      have ihh := ih (freqStep c cur) (freqStep_key_lt c cur hd hf).2 L' hrec
      rw [← hL]
      simp only [List.range_succ_eq_map, List.filter_cons,
        Function.iterate_zero_apply, hle, decide_True, if_true, List.map_cons]
      congr 1
      rw [List.filter_map, List.map_map, ihh]
      simp only [Function.comp_def, Function.iterate_succ_apply]
    · rw [if_neg hle] at h
      have hempty : ((List.range (n + 1)).filter
          (fun k => decide (Date.le ((freqStep c)^[k] cur) sale))) = [] := by
        rw [List.filter_eq_nil_iff]
        intro k hk
        have hmono := step_iterate_mono (freqStep c)
          (fun z hz => freqStep_key_lt c z hz hf) cur hd k
        simp only [decide_eq_true_eq]
        simp only [Date.le] at hle
        intro hcon
        simp only [Date.le] at hcon
        omega
      rw [hempty, List.map_nil]
      exact ((Option.some.injEq _ _).mp h).symm

/-- The mortgage loop emits at most two events per unit of fuel, hence
finitely many events. -/
theorem mortGo_len (m : Mortgage) (sale : Date) :
    ∀ (fuel : Nat) (cur : Date) (k : Nat),
      (mortGo m sale fuel cur k).1.length ≤ 2 * fuel := by
  intro fuel
  induction fuel with
  | zero => intro cur k; simp [mortGo]
  | succ n ih =>
    intro cur k
    simp only [mortGo]
    split
    · simp only [List.length_cons]
      have := ih (Date.addMonths1 cur) (k + 1)
      omega
    · simp

/-- Every event emitted by the mortgage loop is dated at or before the
sale date (the loop guard). -/
theorem mortGo_dates (m : Mortgage) (sale : Date) :
    ∀ (fuel : Nat) (cur : Date) (k : Nat) (e : Event),
      e ∈ (mortGo m sale fuel cur k).1 → Date.le e.date sale := by
  intro fuel
  induction fuel with
  | zero => intro cur k e he; simp [mortGo] at he
  | succ n ih =>
    intro cur k e he
    simp only [mortGo] at he
    split at he
    · rename_i hle
      simp only [List.mem_cons] at he
      rcases he with rfl | rfl | hmem
      · exact hle
      · exact hle
      · exact ih _ _ e hmem
    · simp at he

/-- The mortgage loop emits, for each payment index within the fuel whose
stepped date is within the sale bound, one equity event and one interest
event carrying the negated payment split of that index. -/
theorem mortGo_char (m : Mortgage) (sale : Date) :
    ∀ (fuel : Nat) (cur : Date) (k0 : Nat), cur.d ≤ 31 →
      (mortGo m sale fuel cur k0).1 =
        ((List.range fuel).filter
            (fun j => decide (Date.le (Date.addMonths1^[j] cur) sale))).flatMap
          (fun j =>
            [⟨Date.addMonths1^[j] cur, -(paymentSplit (some m) (k0 + j)).1,
               descrMortgagePrincipal, EvType.equityBuilding⟩,
             ⟨Date.addMonths1^[j] cur, -(paymentSplit (some m) (k0 + j)).2,
               descrMortgageInterest, EvType.interestCost⟩]) := by
  intro fuel
  induction fuel with
  | zero => intro cur k0 hd; simp [mortGo]
  | succ n ih =>
    intro cur k0 hd
    simp only [mortGo]
    split
    · rename_i hle
      have ihh := ih (Date.addMonths1 cur) (k0 + 1) (addMonths1_d_le cur)
      simp only [ihh, List.range_succ_eq_map, List.filter_cons,
        Function.iterate_zero_apply, hle, decide_True, if_true,
        List.flatMap_cons, List.filter_map, List.flatMap_map,
        Nat.add_zero, List.cons_append, List.nil_append]
      simp only [Function.comp_def, Function.iterate_succ_apply, Nat.add_succ,
        Nat.succ_add]
    · rename_i hle
      have hempty : ((List.range (n + 1)).filter
          (fun j => decide (Date.le (Date.addMonths1^[j] cur) sale))) = [] := by
        rw [List.filter_eq_nil_iff]
        intro j hj
        have hmono := step_iterate_mono Date.addMonths1
          (fun z hz => ⟨key_lt_addMonths1 z hz, addMonths1_d_le z⟩) cur hd j
        simp only [decide_eq_true_eq]
        simp only [Date.le] at hle
        intro hcon
        simp only [Date.le] at hcon
        omega
      simp [hempty]

/-- C2: with a mortgage present, the cash-flow expansion emits, for each
payment index `k` starting at 0, exactly one EquityBuilding event (negated
principal portion) followed by one InterestCost event (negated interest
portion), dated `k` calendar-month steps after the mortgage start date,
exactly for the indices with `k < total_payments` whose date does not
exceed the sale date (the loop stops at the first index failing either
bound, which by monotonicity of calendar stepping is the same set). -/
theorem claim2_mortgage_expansion (m : Mortgage) (sale : Date)
    (hd : m.start_date.d ≤ 31) :
    (mortgageEvents m sale).1 =
      ((List.range m.total_payments).filter
          (fun k =>
            decide (Date.le (Date.addMonths1^[k] m.start_date) sale))).flatMap
        (fun k =>
          [⟨Date.addMonths1^[k] m.start_date, -(paymentSplit (some m) k).1,
             descrMortgagePrincipal, EvType.equityBuilding⟩,
           ⟨Date.addMonths1^[k] m.start_date, -(paymentSplit (some m) k).2,
             descrMortgageInterest, EvType.interestCost⟩]) := by
  unfold mortgageEvents
  rw [mortGo_char m sale m.total_payments m.start_date 0 hd]
  simp only [Nat.zero_add]

/-- Witness for C2 at the concrete 30-year mortgage and a sale date one
and a half months after its start. -/
theorem claim2_mortgage_expansion_witness :
    mortW.start_date.d ≤ 31 ∧
      (mortgageEvents mortW saleDate2W).1 =
        ((List.range mortW.total_payments).filter
            (fun k =>
              decide (Date.le (Date.addMonths1^[k] mortW.start_date)
                saleDate2W))).flatMap
          (fun k =>
            [⟨Date.addMonths1^[k] mortW.start_date,
               -(paymentSplit (some mortW) k).1,
               descrMortgagePrincipal, EvType.equityBuilding⟩,
             ⟨Date.addMonths1^[k] mortW.start_date,
               -(paymentSplit (some mortW) k).2,
               descrMortgageInterest, EvType.interestCost⟩]) :=
  ⟨by decide, claim2_mortgage_expansion mortW saleDate2W (by decide)⟩

/-- C5: a recurring cost with a valid frequency, once its expansion loop
completes, emits one negated event per calendar step (month for `monthly`,
year for `annual`) from its start date, exactly for the step dates at or
before the sale date; in particular a start date after the sale date
yields zero events. -/
theorem claim5_recurring_expansion (c : RecCost) (sale : Date) (fuel : Nat)
    (L : List Event) (hd : c.start_date.d ≤ 31)
    (hf : c.frequency = freqMonthly ∨ c.frequency = freqAnnual)
    (h : expandRecurring c sale fuel = some L) :
    L = ((List.range fuel).filter
          (fun k => decide (Date.le ((freqStep c)^[k] c.start_date) sale))).map
        (fun k => (⟨(freqStep c)^[k] c.start_date, -c.amount, c.descr,
          EvType.recurringCost⟩ : Event)) ∧
      (¬ Date.le c.start_date sale → L = []) := by
  have h1 := recurGo_char c sale hf fuel c.start_date hd L h
  refine ⟨h1, fun hnot => ?_⟩
  rw [h1]
  have hempty : ((List.range fuel).filter
      (fun k => decide (Date.le ((freqStep c)^[k] c.start_date) sale))) = [] := by
    rw [List.filter_eq_nil_iff]
    intro k hk
    have hmono := step_iterate_mono (freqStep c)
      (fun z hz => freqStep_key_lt c z hz hf) c.start_date hd k
    simp only [decide_eq_true_eq]
    simp only [Date.le] at hnot
    intro hcon
    simp only [Date.le] at hcon
    omega
  rw [hempty, List.map_nil]

/-- Witness for C5 at a concrete monthly cost expanded with fuel 4 over a
two-and-a-half-month holding window. -/
theorem claim5_recurring_expansion_witness :
    recCostW.start_date.d ≤ 31 ∧
      recCostW.frequency = freqMonthly ∧
      expandRecurring recCostW saleDateW 4 = some recEvsW ∧
      (recEvsW = ((List.range 4).filter
            (fun k =>
              decide (Date.le ((freqStep recCostW)^[k] recCostW.start_date)
                saleDateW))).map
          (fun k => (⟨(freqStep recCostW)^[k] recCostW.start_date,
            -recCostW.amount, recCostW.descr, EvType.recurringCost⟩ : Event)) ∧
        (¬ Date.le recCostW.start_date saleDateW → recEvsW = [])) :=
  ⟨by decide, rfl, rfl,
    claim5_recurring_expansion recCostW saleDateW 4 recEvsW (by decide)
      (Or.inl rfl) rfl⟩

/-- C10: for every recurring cost whose frequency is `monthly` or
`annual`, the expansion loop terminates (completes within some finite
fuel); the mortgage loop always emits at most `2 * total_payments` events;
and the frequency restriction is necessary: on any other frequency with a
start date not after the sale date the loop never completes. -/
theorem claim10_expansion_terminates :
    (∀ (c : RecCost) (sale : Date), c.start_date.d ≤ 31 →
        (c.frequency = freqMonthly ∨ c.frequency = freqAnnual) →
        ∃ (fuel : Nat) (L : List Event),
          expandRecurring c sale fuel = some L) ∧
      (∀ (m : Mortgage) (sale : Date),
        (mortgageEvents m sale).1.length ≤ 2 * m.total_payments) ∧
      (∀ (c : RecCost) (sale : Date), c.frequency ≠ freqMonthly →
        c.frequency ≠ freqAnnual → Date.le c.start_date sale →
        ∀ fuel, expandRecurring c sale fuel = none) := by
  refine ⟨?_, ?_, ?_⟩
  · intro c sale hd hf
    have h := recurGo_isSome c sale hf (sale.key + 1) c.start_date hd
      (by omega)
    obtain ⟨L, hL⟩ := Option.isSome_iff_exists.mp h
    exact ⟨sale.key + 1, L, hL⟩
  · intro m sale
    exact mortGo_len m sale m.total_payments m.start_date 0
  · intro c sale h1 h2 hle fuel
    exact recurGo_none_of_invalid c sale h1 h2 fuel c.start_date hle

/-- Witness for C10: the concrete monthly cost terminates, the concrete
mortgage expansion is bounded, and a malformed frequency loops forever. -/
theorem claim10_expansion_terminates_witness :
    (∃ (fuel : Nat) (L : List Event),
        expandRecurring recCostW saleDateW fuel = some L) ∧
      (mortgageEvents mortW saleDate2W).1.length ≤
        2 * mortW.total_payments ∧
      (∀ fuel,
        expandRecurring
          { descr := recCostW.descr, amount := recCostW.amount,
            start_date := recCostW.start_date, frequency := "weekly" }
          saleDateW fuel = none) :=
  ⟨claim10_expansion_terminates.1 recCostW saleDateW (by decide)
      (Or.inl rfl),
    claim10_expansion_terminates.2.1 mortW saleDate2W,
    fun fuel => claim10_expansion_terminates.2.2
      { descr := recCostW.descr, amount := recCostW.amount,
        start_date := recCostW.start_date, frequency := "weekly" }
      saleDateW (by decide) (by decide) (by decide) fuel⟩

/-- Every event of a completed recurring-cost expansion is dated at or
before the sale date (the loop guard). -/
theorem recurGo_dates (c : RecCost) (sale : Date) :
    ∀ (fuel : Nat) (cur : Date) (L : List Event),
      recurGo c sale fuel cur = some L → ∀ e ∈ L, Date.le e.date sale := by
  intro fuel
  induction fuel with
  | zero =>
    intro cur L h e he
    simp only [recurGo] at h
    split at h
    · exact absurd h (by simp)
    · cases h
      simp at he
  | succ n ih =>
    intro cur L h e he
    simp only [recurGo] at h
    split at h
    · rename_i hle
      rcases Option.map_eq_some'.mp h with ⟨L', hrec, hL⟩
      rw [← hL] at he
      rcases List.mem_cons.mp he with rfl | hmem
      · exact hle
      · exact ih _ _ hrec e hmem
    · cases h
      simp at he

/-- Every event of a completed expansion of a list of recurring costs is
dated at or before the sale date. -/
theorem buildRecurring_dates (sale : Date) (fuel : Nat) :
    ∀ (cs : List RecCost) (L : List Event),
      buildRecurring sale fuel cs = some L →
      ∀ e ∈ L, Date.le e.date sale := by
  intro cs
  induction cs with
  | nil =>
    intro L h e he
    simp only [buildRecurring] at h
    cases h
    simp at he
  | cons c cs ih =>
    intro L h e he
    simp only [buildRecurring] at h
    rcases Option.bind_eq_some.mp h with ⟨l1, hl1, hmap⟩
    rcases Option.map_eq_some'.mp hmap with ⟨l2, hl2, hL⟩
    rw [← hL] at he
    rcases List.mem_append.mp he with h1 | h2
    · exact recurGo_dates c sale fuel c.start_date l1 hl1 e h1
    · exact ih l2 hl2 e h2

/-- C3: the last ledger event of every completed calculation is the Sale
event, dated at the sale date, whose amount is the sale price less the
closing-cost percentage of the price less the remaining mortgage balance,
the balance being computed from elapsed day-count months through the
closed-form formula and clamped to zero once elapsed months reach
`total_payments` (and zero with no mortgage). -/
theorem claim3_sale_proceeds (st : CalcState) (fuel : Nat)
    (df : List Event) (sm : Summary) (si : SaleInfo)
    (hsi : st.sale_info = some si)
    (hok : calcReturns st fuel = Except.ok (df, sm)) :
    df.getLast? = some ⟨si.date, netSaleProceedsSpec st.mortgage si,
        descrSaleProceeds, EvType.sale⟩ ∧
      (st.mortgage = none →
        remainingMortgageSpec st.mortgage si.date = 0) ∧
      (∀ m, st.mortgage = some m →
        (m.total_payments : ℝ) ≤ monthsElapsedAtSale m si.date →
        remainingMortgageSpec st.mortgage si.date = 0) := by
  have hbridge : remainingMortgageAt st.mortgage si.date =
      remainingMortgageSpec st.mortgage si.date := by
    cases hm : st.mortgage with
    | none => rfl
    | some m =>
      simp only [remainingMortgageAt, remainingMortgageSpec]
      rcases lt_or_le (monthsElapsedAtSale m si.date)
        ((m.total_payments : ℝ)) with hlt | hge
      · rw [if_pos hlt, if_neg (not_le.mpr hlt)]
      · rw [if_neg (not_lt.mpr hge), if_pos hge]
  refine ⟨?_, ?_, ?_⟩
  · cases hpre : calcLedgerPresale st si fuel with
    | none => simp [calcReturns, hsi, hpre] at hok
    | some pres =>
      simp only [calcReturns, hsi, hpre, Except.ok.injEq,
        Prod.mk.injEq] at hok
      obtain ⟨hdf, hsm⟩ := hok
      rw [← hdf, List.getLast?_concat]
      simp only [Option.some.injEq, Event.mk.injEq, true_and, and_true]
      unfold netSaleProceedsSpec
      rw [← hbridge]
      ring
  · intro hm
    rw [hm]
    rfl
  · intro m hm hge
    rw [hm]
    simp only [remainingMortgageSpec]
    rw [if_pos hge]

/-- Witness for C3 at a concrete calculation with no mortgage. -/
theorem claim3_sale_proceeds_witness :
    stC3w.sale_info = some siC3w ∧
      calcReturns stC3w 0 = Except.ok (dfC3w, smC3w) ∧
      (dfC3w.getLast? = some ⟨siC3w.date,
          netSaleProceedsSpec stC3w.mortgage siC3w,
          descrSaleProceeds, EvType.sale⟩ ∧
        (stC3w.mortgage = none →
          remainingMortgageSpec stC3w.mortgage siC3w.date = 0) ∧
        (∀ m, stC3w.mortgage = some m →
          (m.total_payments : ℝ) ≤ monthsElapsedAtSale m siC3w.date →
          remainingMortgageSpec stC3w.mortgage siC3w.date = 0)) :=
  ⟨rfl, rfl, claim3_sale_proceeds stC3w 0 dfC3w smC3w siC3w rfl rfl⟩

/-- C4 counterexample: with an initial cost dated after the sale date, the
ledger returned by the engine (sale event appended after sorting) is not
sorted ascending by date. -/
theorem claim4_counterexample_not_sorted :
    calcReturns stC4x 0 = Except.ok (dfC4x, smC4x) ∧
      ¬ List.Sorted evLe dfC4x :=
  ⟨rfl, by decide⟩

/-- C4 (amended): the engine's ledger, including the appended Sale event,
is sorted ascending by date whenever every initial cost and improvement is
dated at or before the sale date (mortgage and recurring events satisfy
this by their loop guards); events dated after the sale date break the
property, since the sale row is appended after sorting. -/
theorem claim4_ledger_sorted (st : CalcState) (fuel : Nat)
    (df : List Event) (sm : Summary) (si : SaleInfo)
    (hsi : st.sale_info = some si)
    (hinit : ∀ c ∈ st.initial_costs, Date.le c.date si.date)
    (himp : ∀ c ∈ st.improvements, Date.le c.date si.date)
    (hok : calcReturns st fuel = Except.ok (df, sm)) :
    List.Sorted evLe df := by
  cases hpre : calcLedgerPresale st si fuel with
  | none => simp [calcReturns, hsi, hpre] at hok
  | some pres =>
    simp only [calcReturns, hsi, hpre, Except.ok.injEq,
      Prod.mk.injEq] at hok
    obtain ⟨hdf, hsm⟩ := hok
    rw [← hdf]
    rw [List.Sorted, List.pairwise_append]
    refine ⟨List.sorted_insertionSort evLe pres.1,
      List.pairwise_singleton _ _, ?_⟩
    intro a ha b hb
    rw [List.mem_singleton] at hb
    subst hb
    simp only [sortLedger, List.mem_insertionSort] at ha
    simp only [calcLedgerPresale] at hpre
    rcases Option.map_eq_some'.mp hpre with ⟨recEvs, hrec, hpres⟩
    rw [← hpres] at ha
    simp only [List.mem_append] at ha
    show Date.le a.date si.date
    rcases ha with ((hai | hain) | ham) | har
    · rcases List.mem_map.mp hai with ⟨c, hc, rfl⟩
      exact hinit c hc
    · rcases List.mem_map.mp hain with ⟨c, hc, rfl⟩
      exact himp c hc
    · cases hm : st.mortgage with
      | none => rw [hm] at ham; simp at ham
      | some mg =>
        rw [hm] at ham
        exact mortGo_dates mg si.date mg.total_payments mg.start_date 0 a ham
    · exact buildRecurring_dates si.date fuel st.recurring_costs recEvs
        hrec a har

/-- Witness for the amended C4 at a concrete calculation whose single
initial cost precedes the sale date. -/
theorem claim4_ledger_sorted_witness :
    stC4w.sale_info = some siC4 ∧
      (∀ c ∈ stC4w.initial_costs, Date.le c.date siC4.date) ∧
      (∀ c ∈ stC4w.improvements, Date.le c.date siC4.date) ∧
      calcReturns stC4w 0 = Except.ok (dfC4w, smC4w) ∧
      List.Sorted evLe dfC4w :=
  ⟨rfl, by decide, by decide, rfl,
    claim4_ledger_sorted stC4w 0 dfC4w smC4w siC4 rfl (by decide)
      (by decide) rfl⟩

/-- C9 counterexample: a calculation whose only initial cost is described
`closing costs` has no down-payment match (down payment 0), yet its
summary's purchase date is defined — it is the first initial-cost row's
date, not a value derived from the down-payment lookup. -/
theorem claim9_counterexample_purchase_date :
    calcReturns stC9x 0 = Except.ok (dfC9x, smC9x) ∧
      dpRows dfC9x = [] ∧
      smC9x.downPayment = 0 ∧
      smC9x.purchaseDate ≠ none :=
  ⟨rfl, rfl, rfl, by decide⟩

/-- C9 (amended): the summary's down payment is the negated amount of the
first InitialCost event whose description contains `down payment`
case-insensitively (0 when none matches), while the purchase date is the
date of the first InitialCost event of the ledger regardless of the
down-payment match (undefined only when no InitialCost event exists); the
summary exposes exactly these two derivations. -/
theorem claim9_down_payment_lookup (df : List Event) :
    downPaymentOf df =
        ((df.find? (fun e =>
            isInitialRow e && containsCI e.descr downPaymentNeedle)).map
          (fun e => -e.amount)).getD 0 ∧
      purchaseDateOf df = (df.find? isInitialRow).map (fun e => e.date) ∧
      (∀ (st : CalcState) (si : SaleInfo) (a r n : ℝ),
        (summaryOf st si df a r n).downPayment = downPaymentOf df ∧
        (summaryOf st si df a r n).purchaseDate = purchaseDateOf df) := by
  refine ⟨?_, ?_, fun st si a r n => ⟨rfl, rfl⟩⟩
  · have hcomb : dpRows df = df.filter (fun e =>
        isInitialRow e && containsCI e.descr downPaymentNeedle) := by
      unfold dpRows initialRows
      rw [List.filter_filter]
      exact List.filter_congr (fun e _ => Bool.and_comm _ _)
    simp only [downPaymentOf, hcomb, ← List.filter_head?]
    cases df.filter (fun e =>
        isInitialRow e && containsCI e.descr downPaymentNeedle) with
    | nil => rfl
    | cons a t => rfl
  · simp only [purchaseDateOf, initialRows, ← List.filter_head?]
    cases df.filter isInitialRow with
    | nil => rfl
    | cons a t => rfl
